import Mathlib

/-!
Verification of the color-search-tool point-cloud engine.

This file contains a shallow embedding, in Lean 4, of the algorithmic core of
the repository (a Three.js color-cloud visualizer):

* the GPU-picking index/color codec and hex parsing from src/js/utils.js
  (duplicated in src/js/systems/Picker.js and src/unnamed/part_003),
* the Levenshtein-distance implementation getEditDistance from the same file,
* the per-instance scale policy and bulk position update of
  src/js/components/PointCloud.js,
* the camera rig zoom/fly-to state machine of src/js/systems/CameraRig.js
  (and the revision kept as src/unnamed/part_002),
* the CSV record loader of src/js/data/ColorLoader.js,
* the decode tails of Picker.pick (src/js/systems/Picker.js) and of
  pickColorAtPixel (src/js/main.js),
* the search ranking passes updateSearchResults (src/js/main.js,
  src/unnamed/part_000) and UIManager._handleSearch (src/js/main.js, second
  module in that file).

JavaScript numbers are modelled as exact rationals (ℚ) where fractional
arithmetic occurs and as ℕ/ℤ for integer-valued quantities; JavaScript
strings are modelled as Lean strings (sequences of characters).  Fallible
code is modelled with Except/Option.  Theorems about each frozen claim
follow the definitions.
-/

/-! ## Bit-packing helper -/

/-- Auxiliary fact about `Nat` bit operations used to reason about the
24-bit RGB packing of picking ids: or-ing a left-shifted value with a value
that fits entirely below the shift amount is ordinary addition. -/
theorem shiftLeft_lor_eq_add : ∀ (y : ℕ), ∀ (x k : ℕ), y < 2 ^ k →
    (x <<< k) ||| y = x * 2 ^ k + y := by
  intro y
  induction y using Nat.binaryRec with
  | z => intro x k _; simp [Nat.shiftLeft_eq]
  | f b n ih =>
    intro x k h
    match k with
    | 0 => cases b <;> simp_all [Nat.bit_val]
    | k + 1 =>
      have hx : x <<< (k + 1) = Nat.bit false (x <<< k) := by
        simp [Nat.shiftLeft_eq, Nat.bit_val, Nat.pow_succ]; ring
      have hb : (Nat.bit b n) = 2 * n + b.toNat := Nat.bit_val b n
      have hn : n < 2 ^ k := by
        have h2 : 2 * n + b.toNat < 2 ^ (k + 1) := by rw [← hb]; exact h
        have : 2 * n < 2 * 2 ^ k := by
          simp [Nat.pow_succ] at h2 ⊢; omega
        omega
      rw [hx, Nat.lor_bit, ih x k hn]
      simp [Nat.bit_val, Nat.pow_succ]
      ring

/-! ## utils.js — hex parsing and the picking color codec

The source (src/js/utils.js, duplicated in src/unnamed/part_003):

    export function indexToColor(index) {
        const encoded = index + 1;
        const r = ((encoded >> 16) & 0xff) / 255;
        const g = ((encoded >> 8) & 0xff) / 255;
        const b = (encoded & 0xff) / 255;
        return new THREE.Color(r, g, b);
    }
    export function colorToIndex(r, g, b) {
        const encoded = (r << 16) | (g << 8) | b;
        return encoded - 1;
    }
-/

/-- An 8-bit-per-channel RGB triple, as produced by hexToRgb and read back
from the picking render target (a Uint8Array). -/
structure Rgb where
  r : Nat
  g : Nat
  b : Nat
deriving Repr, DecidableEq

/-- The byte triple that indexToColor packs for instance index `index`:
`encoded = index + 1` split most-significant-first over (R, G, B).
indexToColor itself stores these bytes divided by 255 in a THREE.Color
(see indexToColor below); the GPU writes them back as 0–255 bytes. -/
def indexToColorBytes (index : Nat) : Rgb :=
  let encoded := index + 1
  { r := (encoded >>> 16) &&& 0xff
    g := (encoded >>> 8) &&& 0xff
    b := encoded &&& 0xff }

/-- indexToColor from src/js/utils.js: the THREE.Color float triple, each
channel the corresponding byte of `index + 1` divided by 255. -/
def indexToColor (index : Nat) : ℚ × ℚ × ℚ :=
  let encoded := index + 1
  ( ((encoded >>> 16) &&& 0xff : ℕ) / 255
  , ((encoded >>> 8) &&& 0xff : ℕ) / 255
  , ((encoded &&& 0xff : ℕ) : ℚ) / 255 )

/-- colorToIndex from src/js/utils.js: repack the byte triple and subtract
the +1 offset.  The result is an integer because the all-zero pixel decodes
to -1. -/
def colorToIndex (r g b : Nat) : ℤ :=
  let encoded : ℕ := (r <<< 16) ||| (g <<< 8) ||| b
  (encoded : ℤ) - 1

theorem colorToIndex_black : colorToIndex 0 0 0 = -1 := by decide

/-- Repacking the three bytes of a 24-bit value recovers the value. -/
theorem bytes_repack (e : ℕ) (he : e < 2 ^ 24) :
    (((e >>> 16) &&& 0xff) <<< 16) ||| (((e >>> 8) &&& 0xff) <<< 8) ||| (e &&& 0xff) = e := by
  have h255 : (0xff : ℕ) = 2 ^ 8 - 1 := by norm_num
  have hr : (e >>> 16) &&& 0xff = e / 2 ^ 16 % 2 ^ 8 := by
    rw [h255, Nat.and_pow_two_sub_one_eq_mod, Nat.shiftRight_eq_div_pow]
  have hg : (e >>> 8) &&& 0xff = e / 2 ^ 8 % 2 ^ 8 := by
    rw [h255, Nat.and_pow_two_sub_one_eq_mod, Nat.shiftRight_eq_div_pow]
  have hb : e &&& 0xff = e % 2 ^ 8 := by
    rw [h255, Nat.and_pow_two_sub_one_eq_mod]
  have hglt : e / 2 ^ 8 % 2 ^ 8 < 2 ^ 8 := Nat.mod_lt _ (by norm_num)
  have hblt : e % 2 ^ 8 < 2 ^ 8 := Nat.mod_lt _ (by norm_num)
  have hinner : ((e / 2 ^ 8 % 2 ^ 8) <<< 8) ||| (e % 2 ^ 8)
      = (e / 2 ^ 8 % 2 ^ 8) * 2 ^ 8 + e % 2 ^ 8 :=
    shiftLeft_lor_eq_add _ _ _ hblt
  have houter : ((e / 2 ^ 16 % 2 ^ 8) <<< 16) ||| ((e / 2 ^ 8 % 2 ^ 8) <<< 8)
      = (e / 2 ^ 16 % 2 ^ 8) * 2 ^ 16 + (e / 2 ^ 8 % 2 ^ 8) * 2 ^ 8 := by
    have hs : (e / 2 ^ 8 % 2 ^ 8) <<< 8 = (e / 2 ^ 8 % 2 ^ 8) * 2 ^ 8 :=
      Nat.shiftLeft_eq _ _
    have hlt : (e / 2 ^ 8 % 2 ^ 8) * 2 ^ 8 < 2 ^ 16 := by
      have := hglt; nlinarith
    calc ((e / 2 ^ 16 % 2 ^ 8) <<< 16) ||| ((e / 2 ^ 8 % 2 ^ 8) <<< 8)
        = ((e / 2 ^ 16 % 2 ^ 8) <<< 16) ||| ((e / 2 ^ 8 % 2 ^ 8) * 2 ^ 8) := by rw [hs]
      _ = (e / 2 ^ 16 % 2 ^ 8) * 2 ^ 16 + (e / 2 ^ 8 % 2 ^ 8) * 2 ^ 8 :=
          shiftLeft_lor_eq_add _ _ _ hlt
  rw [hr, hg, hb, Nat.lor_assoc, hinner]
  have hlt2 : (e / 2 ^ 8 % 2 ^ 8) * 2 ^ 8 + e % 2 ^ 8 < 2 ^ 16 := by nlinarith
  rw [shiftLeft_lor_eq_add _ _ _ hlt2]
  omega

/-- C1. For every valid record index `i` (with `i + 1` representable in 24
bits), decoding the byte triple encoded by indexToColor(i) with colorToIndex
yields `i` again, and the all-zero pixel (0,0,0) decodes to -1, never to a
valid index; moreover the THREE.Color stored by indexToColor is exactly that
byte triple with each channel divided by 255. -/
theorem c1_picking_codec_roundtrip (i : ℕ) (h : i + 1 < 2 ^ 24) :
    colorToIndex (indexToColorBytes i).r (indexToColorBytes i).g (indexToColorBytes i).b = (i : ℤ)
      ∧ colorToIndex 0 0 0 = -1
      ∧ indexToColor i = ( ((indexToColorBytes i).r : ℚ) / 255
                         , ((indexToColorBytes i).g : ℚ) / 255
                         , ((indexToColorBytes i).b : ℚ) / 255 ) := by
  refine ⟨?_, colorToIndex_black, rfl⟩
  show ((((i + 1) >>> 16 &&& 0xff) <<< 16) ||| (((i + 1) >>> 8 &&& 0xff) <<< 8)
      ||| ((i + 1) &&& 0xff) : ℕ) - 1 = (i : ℤ)
  rw [bytes_repack (i + 1) h]
  push_cast
  ring

/-- Instantiation of C1 at the concrete index 123456. -/
theorem c1_picking_codec_roundtrip_witness :
    123456 + 1 < 2 ^ 24
      ∧ (colorToIndex (indexToColorBytes 123456).r (indexToColorBytes 123456).g
          (indexToColorBytes 123456).b = (123456 : ℤ)
        ∧ colorToIndex 0 0 0 = -1
        ∧ indexToColor 123456 = ( ((indexToColorBytes 123456).r : ℚ) / 255
                                , ((indexToColorBytes 123456).g : ℚ) / 255
                                , ((indexToColorBytes 123456).b : ℚ) / 255 )) :=
  ⟨by norm_num, c1_picking_codec_roundtrip 123456 (by norm_num)⟩

/-! ## utils.js — hexToRgb

    export function hexToRgb(hex) {
        const result = /^#?([a-f\d]{2})([a-f\d]{2})([a-f\d]{2})$/i.exec(hex);
        return result ? {
            r: parseInt(result[1], 16),
            g: parseInt(result[2], 16),
            b: parseInt(result[3], 16)
        } : { r: 0, g: 0, b: 0 };
    }
-/

/-- A character matched by the regex class [a-f\d] with the i flag:
a decimal digit or a hex letter of either case. -/
def isHexChar (c : Char) : Bool :=
  c.isDigit || ('a' ≤ c && c ≤ 'f') || ('A' ≤ c && c ≤ 'F')

/-- Value of one hex digit, as parseInt(·, 16) assigns it. -/
def hexVal (c : Char) : Nat :=
  if c.isDigit then c.toNat - '0'.toNat
  else if 'a' ≤ c && c ≤ 'f' then c.toNat - 'a'.toNat + 10
  else c.toNat - 'A'.toNat + 10

/-- The regex's optional leading '#': strip it when present. -/
def stripHash (cs : List Char) : List Char :=
  match cs with
  | [] => []
  | c :: rest => if c = '#' then rest else c :: rest

/-- The regex body ([a-f\d]{2}){3}: exactly six hex characters, grouped in
pairs, each pair parsed by parseInt(·, 16). -/
def parseSixHex (cs : List Char) : Option Rgb :=
  match cs with
  | [c1, c2, c3, c4, c5, c6] =>
    if (isHexChar c1 && isHexChar c2 && isHexChar c3 &&
        isHexChar c4 && isHexChar c5 && isHexChar c6) then
      some { r := 16 * hexVal c1 + hexVal c2
             g := 16 * hexVal c3 + hexVal c4
             b := 16 * hexVal c5 + hexVal c6 }
    else none
  | _ => none

/-- hexToRgb from src/js/utils.js.  The anchored regex ^#?([a-f\d]{2}){3}$
is modelled by stripping one optional leading '#' and then requiring exactly
six hex characters; on any failure the function returns black (0,0,0). -/
def hexToRgb (hex : String) : Rgb :=
  match parseSixHex (stripHash hex.toList) with
  | some rgb => rgb
  | none => { r := 0, g := 0, b := 0 }

/-- The claim-side format condition of C10: the string is exactly six
hexadecimal digits, optionally prefixed with '#'.  Stated independently of
hexToRgb so that the theorem below compares the implementation against the
claim's wording. -/
def IsHexColorFormat (s : String) : Prop :=
  (s.toList.length = 6 ∧ ∀ c ∈ s.toList, isHexChar c)
    ∨ (s.toList.length = 7 ∧ s.toList.headD ' ' = '#'
        ∧ ∀ c ∈ s.toList.tail, isHexChar c)

instance (s : String) : Decidable (IsHexColorFormat s) := by
  unfold IsHexColorFormat
  infer_instance

/-! ## CameraRig (src/js/systems/CameraRig.js, revision src/unnamed/part_002)

Camera numbers are modelled as exact rationals.  The constructor state:

    this.orbitPoint = new THREE.Vector3(0, 0, 0);
    this.distance = 2.5;
    this.angles = { theta: 0, phi: Math.PI / 4 };
    this.targetOrbitPoint = new THREE.Vector3(0, 0, 0);
    this.targetDistance = 2.5;
    this.isAnimatingOrbit = false;
    this.isAnimatingDistance = false;
    this.velocity = new THREE.Vector3(0, 0, 0);

The angle phi is initialised to the rational stand-in number piQ/4 below;
no claim inspects angle values. -/

/-- A 3-component vector of rationals, standing in for THREE.Vector3. -/
def Vec3 : Type := ℚ × ℚ × ℚ

instance : DecidableEq Vec3 := by unfold Vec3; infer_instance

/-- Rational stand-in for the Math.PI constant used only to initialise the
angle state, which no claim inspects. -/
def piQ : ℚ := 3.141592653589793

/-- The CameraRig state fields (src/js/systems/CameraRig.js constructor).
The camera object itself, the DOM element, the friction and speed constants
and the input caches are not part of any claim and are omitted. -/
structure CamState where
  orbitPoint : Vec3
  distance : ℚ
  theta : ℚ
  phi : ℚ
  targetOrbitPoint : Vec3
  targetDistance : ℚ
  isAnimatingOrbit : Bool
  isAnimatingDistance : Bool
  velocity : Vec3
deriving DecidableEq

/-- The CameraRig constructor state. -/
def camInit : CamState :=
  { orbitPoint := (0, 0, 0)
    distance := 2.5
    theta := 0
    phi := piQ / 4
    targetOrbitPoint := (0, 0, 0)
    targetDistance := 2.5
    isAnimatingOrbit := false
    isAnimatingDistance := false
    velocity := (0, 0, 0) }

/-- flyTo from src/js/systems/CameraRig.js (lines 52-58):

    flyTo(targetPosition) {
        this.targetOrbitPoint.copy(targetPosition);
        this.targetDistance = 0.2; // Zoom in close
        this.isAnimatingOrbit = true;
        this.isAnimatingDistance = true;
    }

Note that this revision does not touch this.velocity. -/
def flyTo (st : CamState) (targetPosition : Vec3) : CamState :=
  { st with
    targetOrbitPoint := targetPosition
    targetDistance := 0.2
    isAnimatingOrbit := true
    isAnimatingDistance := true }

/-- flyTo from the revision kept as src/unnamed/part_002 (lines 47-54):

    flyTo(targetPosition) {
        this.targetOrbitPoint.copy(targetPosition);
        this.targetDistance = 0.1;
        this.velocity.set(0, 0, 0);
        this.isAnimatingOrbit = true;
        this.isAnimatingDistance = true;
    }
-/
def flyToRev (st : CamState) (targetPosition : Vec3) : CamState :=
  { st with
    targetOrbitPoint := targetPosition
    targetDistance := 0.1
    velocity := (0, 0, 0)
    isAnimatingOrbit := true
    isAnimatingDistance := true }

/-- C6 counterexample.  The claim says flyTo sets velocity to the zero
vector; in src/js/systems/CameraRig.js it does not: flying from a state
whose velocity is (1, 2, 3) leaves the velocity (1, 2, 3). -/
theorem c6_flyto_velocity_counterexample :
    (flyTo { camInit with velocity := (1, 2, 3) } (4, 5, 6)).velocity ≠ ((0, 0, 0) : Vec3) := by
  decide

/-- C6 (amended).  For every state and target position, flyTo in
src/js/systems/CameraRig.js sets targetOrbitPoint to the target position,
sets targetDistance to the fixed close-up value 0.2, and sets both
animation flags, but leaves velocity unchanged; the revision in
src/unnamed/part_002 does the same with close-up value 0.1 and additionally
sets velocity to the zero vector. -/
theorem c6_flyto_effects (st : CamState) (p : Vec3) :
    (flyTo st p).targetOrbitPoint = p
      ∧ (flyTo st p).targetDistance = 0.2
      ∧ (flyTo st p).isAnimatingOrbit = true
      ∧ (flyTo st p).isAnimatingDistance = true
      ∧ (flyTo st p).velocity = st.velocity
      ∧ (flyToRev st p).targetOrbitPoint = p
      ∧ (flyToRev st p).targetDistance = 0.1
      ∧ (flyToRev st p).isAnimatingOrbit = true
      ∧ (flyToRev st p).isAnimatingDistance = true
      ∧ (flyToRev st p).velocity = (0, 0, 0) :=
  ⟨rfl, rfl, rfl, rfl, rfl, rfl, rfl, rfl, rfl, rfl⟩

/-! ### The zoom-distance subsystem (claim C7)

The only writers of this.distance, this.targetDistance and
this.isAnimatingDistance in src/js/systems/CameraRig.js are:

* the wheel listener (lines 158-170), which first clears the
  distance-animation flag and then clamps
  this.distance = Math.max(0.1, Math.min(20, this.distance + e.deltaY * 0.001));
* flyTo (lines 52-58), which sets this.targetDistance = 0.2 and raises the
  flag;
* _updateAnimations (lines 102-118, called once per update(dt)), which,
  while the flag is up, moves this.distance 10% toward this.targetDistance
  and drops the flag within 1e-3 of the target.

_updatePhysics and _updateCameraTransform read this.distance but never
write it, so the triple below is a closed subsystem of the rig state and
update(dt) acts on it exactly as _updateAnimations does. -/

/-- The zoom-distance projection of the CameraRig state. -/
structure ZoomState where
  distance : ℚ
  targetDistance : ℚ
  isAnimatingDistance : Bool
deriving DecidableEq

/-- Constructor values of the zoom subsystem. -/
def zoomInit : ZoomState :=
  { distance := 2.5, targetDistance := 2.5, isAnimatingDistance := false }

/-- The three event kinds of claim C7: a wheel-zoom event carrying e.deltaY,
a flyTo call, and a per-frame update(dt) step (whose effect on the zoom
subsystem does not depend on dt). -/
inductive ZoomEvent where
  | wheel (deltaY : ℚ)
  | flyToEvent
  | updateFrame
deriving DecidableEq

/-- One event step of the zoom subsystem (see the section comment for the
corresponding source lines). -/
def zoomStep (st : ZoomState) : ZoomEvent → ZoomState
  | .wheel deltaY =>
    let cleared := if st.isAnimatingDistance then { st with isAnimatingDistance := false } else st
    { cleared with distance := max 0.1 (min 20 (cleared.distance + deltaY * 0.001)) }
  | .flyToEvent =>
    { st with targetDistance := 0.2, isAnimatingDistance := true }
  | .updateFrame =>
    if st.isAnimatingDistance then
      let d := st.distance + (st.targetDistance - st.distance) * 0.1
      { distance := d
        targetDistance := st.targetDistance
        isAnimatingDistance := decide (¬ |st.targetDistance - d| < 0.001) }
    else st

/-- Folding a whole event sequence from the constructor state. -/
def zoomRun (events : List ZoomEvent) : ZoomState :=
  events.foldl zoomStep zoomInit

/-- The inductive invariant for C7: both the distance and the distance
target stay inside the wheel clamp range. -/
def ZoomInv (st : ZoomState) : Prop :=
  0.1 ≤ st.distance ∧ st.distance ≤ 20 ∧ 0.1 ≤ st.targetDistance ∧ st.targetDistance ≤ 20

theorem zoomInv_init : ZoomInv zoomInit := by
  unfold ZoomInv zoomInit
  norm_num

theorem zoomInv_step (st : ZoomState) (ev : ZoomEvent) (h : ZoomInv st) :
    ZoomInv (zoomStep st ev) := by
  obtain ⟨h1, h2, h3, h4⟩ := h
  cases ev with
  | wheel deltaY =>
    unfold zoomStep ZoomInv
    dsimp only
    split_ifs <;>
      exact ⟨le_max_left _ _, max_le (by norm_num) (min_le_left _ _), h3, h4⟩
  | flyToEvent =>
    unfold zoomStep ZoomInv
    exact ⟨h1, h2, by norm_num, by norm_num⟩
  | updateFrame =>
    unfold zoomStep ZoomInv
    split_ifs with hA
    · dsimp only
      refine ⟨by linarith, by linarith, h3, h4⟩
    · exact ⟨h1, h2, h3, h4⟩

/-- C7.  Starting from the constructor distance 2.5, after every finite
sequence of wheel-zoom events, flyTo calls, and per-frame update(dt) steps,
the camera distance lies within the interval [0.1, 20]. -/
theorem c7_distance_bounded (events : List ZoomEvent) :
    0.1 ≤ (zoomRun events).distance ∧ (zoomRun events).distance ≤ 20 := by
  have h : ZoomInv (zoomRun events) := by
    unfold zoomRun
    induction events using List.reverseRecOn with
    | nil => exact zoomInv_init
    | append_singleton evs ev ih =>
      rw [List.foldl_append]
      exact zoomInv_step _ _ ih
  exact ⟨h.1, h.2.1⟩

/-! ## PointCloud (src/js/components/PointCloud.js)

A loaded color record, with the exact field set pushed by
ColorLoader.load (src/js/data/ColorLoader.js lines 42-53):
name, hex, l, a, oklab_b, the derived r/g/b bytes, and flag. -/

structure ColorRecord where
  name : String
  hex : String
  l : ℚ
  a : ℚ
  oklab_b : ℚ
  r : Nat
  g : Nat
  b : Nat
  flag : Bool
deriving Repr, DecidableEq

/-- A color space as PointCloud.updatePositions consumes it: a pure mapping
from a record to a 3D position (colorSpace.getPosition(colorObj); the
user-adjustable scale factor is captured inside the mapping, exactly as the
source closes over the module-level scale variable). -/
def ColorSpace : Type := ColorRecord → Vec3

/-- PointCloud._calculateScale (src/js/components/PointCloud.js
lines 176-185):

    _calculateScale(index, colorObj) {
        // Rule 1: Selected item is always big
        if (index === this.selectedIndex) return 2.4;
        // Rule 2: Hidden items are 0
        if (this.hideUnflagged && !colorObj.flag) return 0;
        // Rule 3: Default
        return 1.0;
    }

The instance state this.selectedIndex / this.hideUnflagged is passed
explicitly. -/
def calculateScale (selectedIndex : ℤ) (hideUnflagged : Bool)
    (index : ℕ) (colorObj : ColorRecord) : ℚ :=
  if (index : ℤ) = selectedIndex then 2.4
  else if hideUnflagged && !colorObj.flag then 0
  else 1.0

/-- C2.  For every instance index of a loaded dataset, the scale computed
for it is exactly one of 0, 1.0 and 2.4; it is 2.4 if and only if the index
equals the currently selected index; and otherwise it is 0 when
hide-unflagged is on and the record is unflagged, else 1.0. -/
theorem c2_scale_policy (selectedIndex : ℤ) (hideUnflagged : Bool)
    (index : ℕ) (colorObj : ColorRecord) :
    (calculateScale selectedIndex hideUnflagged index colorObj = 0
      ∨ calculateScale selectedIndex hideUnflagged index colorObj = 1
      ∨ calculateScale selectedIndex hideUnflagged index colorObj = 2.4)
    ∧ (calculateScale selectedIndex hideUnflagged index colorObj = 2.4
        ↔ (index : ℤ) = selectedIndex)
    ∧ ((index : ℤ) ≠ selectedIndex →
        calculateScale selectedIndex hideUnflagged index colorObj
          = if hideUnflagged && !colorObj.flag then 0 else 1) := by
  unfold calculateScale
  by_cases hsel : (index : ℤ) = selectedIndex
  · rw [if_pos hsel]
    exact ⟨Or.inr (Or.inr rfl), ⟨fun _ => hsel, fun _ => rfl⟩, fun hne => absurd hsel hne⟩
  · rw [if_neg hsel]
    by_cases hflag : (hideUnflagged && !colorObj.flag) = true
    · rw [if_pos hflag]
      exact ⟨Or.inl rfl, ⟨fun h0 => by norm_num at h0, fun hs => absurd hs hsel⟩,
        fun _ => by rw [if_pos hflag]⟩
    · rw [if_neg hflag]
      exact ⟨Or.inr (Or.inl (by norm_num)), ⟨fun h1 => by norm_num at h1, fun hs => absurd hs hsel⟩,
        fun _ => by rw [if_neg hflag]; norm_num⟩

/-- A fixed record used to instantiate theorems at concrete inputs. -/
def sampleRecord : ColorRecord :=
  { name := "Red", hex := "ff0000", l := 0.5, a := 0.1, oklab_b := 0.1
    r := 255, g := 0, b := 0, flag := true }

/-- Instantiation of C2 at index 3, selected index 2, hide-unflagged off:
the scale is the default 1.0. -/
theorem c2_scale_policy_witness :
    calculateScale 2 false 3 sampleRecord = 1 := by
  have h := c2_scale_policy 2 false 3 sampleRecord
  simpa using h.2.2 (by decide)

/-! ### PointCloud.updatePositions (src/js/components/PointCloud.js
lines 47-96)

For every record index i the loop writes, into both the visible and the
picking batch, a transform rebuilt from scratch
(dummy.position = colorSpace.getPosition(colorObj),
dummy.quaternion.identity(), dummy.scale = _calculateScale(i, colorObj)),
and writes the color channel (colorObj.hex for the visible batch,
indexToColor(i) for the picking batch).  A transform is modelled as its
position and uniform scale; the rotation component is the identity in every
matrix this routine writes.  The cooperative yield every 1000 instances
(await between chunks) only interleaves scheduling and does not change what
is written, so it is not modelled.  The method also records the color space
in this.currentSpace.  The prior buffer contents are never read. -/

/-- One visible-batch instance as written by updatePositions: transform and
the record's own hex color (this.colorHelper.set(colorObj.hex)). -/
structure VisEntry where
  pos : Vec3
  scale : ℚ
  colorHex : String

/-- One picking-batch instance as written by updatePositions: the same
transform and the identity-encoded color indexToColor(i). -/
structure PickEntry where
  pos : Vec3
  scale : ℚ
  idColor : ℚ × ℚ × ℚ

/-- The PointCloud state fields read or written by updatePositions. -/
structure PointCloudState where
  data : List ColorRecord
  selectedIndex : ℤ
  hideUnflagged : Bool
  currentSpace : Option ColorSpace

/-- PointCloud.updatePositions: returns the updated object state and the
two freshly written instance buffers.  The prior buffers are a parameter
only to reflect that the method replaces them wholesale. -/
def updatePositions (st : PointCloudState) (colorSpace : ColorSpace)
    (bufs : List VisEntry × List PickEntry) :
    PointCloudState × List VisEntry × List PickEntry :=
  let _ := bufs
  let st' := { st with currentSpace := some colorSpace }
  let vis := st.data.enum.map (fun p =>
    { pos := colorSpace p.2
      scale := calculateScale st.selectedIndex st.hideUnflagged p.1 p.2
      colorHex := p.2.hex })
  let pick := st.data.enum.map (fun p =>
    { pos := colorSpace p.2
      scale := calculateScale st.selectedIndex st.hideUnflagged p.1 p.2
      idColor := indexToColor p.1 })
  (st', vis, pick)

/-- C8.  updatePositions is idempotent: with the dataset, color space,
scale factor (captured in the color space mapping), selection and
visibility state fixed, running it twice produces state and buffers
identical to running it once; indeed its output does not depend on the
prior buffer contents at all. -/
theorem c8_updatePositions_idempotent (st : PointCloudState) (colorSpace : ColorSpace)
    (bufs bufs' : List VisEntry × List PickEntry) :
    updatePositions (updatePositions st colorSpace bufs).1 colorSpace
        (updatePositions st colorSpace bufs).2
      = updatePositions st colorSpace bufs
    ∧ updatePositions st colorSpace bufs = updatePositions st colorSpace bufs' :=
  ⟨rfl, rfl⟩

/-! ## JavaScript string helpers

The loader and the search code use String.prototype.split, trim,
toLowerCase and includes.  Lean's own String.splitOn and String.trim are
defined by well-founded recursion and do not reduce definitionally, so the
JavaScript operations are modelled here by structurally recursive functions
on the character list of the string (identical in behaviour on the
character sequences involved). -/

/-- JavaScript split with a single-character separator:
"".split(sep) is [""], and separators delimit (possibly empty) fields. -/
def splitOnChar (sep : Char) : List Char → List (List Char)
  | [] => [[]]
  | c :: rest =>
    let r := splitOnChar sep rest
    if c = sep then [] :: r
    else (c :: r.headD []) :: r.tail

/-- String-level wrapper for splitOnChar. -/
def jsSplit (s : String) (sep : Char) : List String :=
  (splitOnChar sep s.toList).map (fun cs => String.mk cs)

/-- JavaScript String.prototype.trim: strip whitespace from both ends. -/
def jsTrim (s : String) : String :=
  String.mk (((s.toList.dropWhile Char.isWhitespace).reverse.dropWhile
    Char.isWhitespace).reverse)

/-- JavaScript String.prototype.toLowerCase on the ASCII range. -/
def jsToLower (s : String) : String :=
  String.mk (s.toList.map Char.toLower)

/-- Does the character list start with the given list? -/
def listStartsWith : List Char → List Char → Bool
  | _, [] => true
  | [], _ :: _ => false
  | h :: t, n :: ns => h = n && listStartsWith t ns

/-- Substring occurrence test on character lists. -/
def listHasSub : List Char → List Char → Bool
  | [], needle => needle.isEmpty
  | h :: t, needle => listStartsWith (h :: t) needle || listHasSub t needle

/-- JavaScript String.prototype.includes. -/
def jsIncludes (s : String) (needle : String) : Bool :=
  listHasSub s.toList needle.toList

/-! ## ColorLoader (src/js/data/ColorLoader.js)

The parsing loop of ColorLoader.load (lines 30-66).  The fetch and the
progress callbacks are not modelled; a thrown exception is modelled as
Except.error, which load re-throws to the caller (the catch block at the
end of load).  The source for one row:

    const line = lines[i].trim();
    if (!line) continue;
    const parts = line.split(',');
    if (parts.length >= 5) {
        const hex = parts[1];
        const rgb = hexToRgb(hex);
        data.push({
            name: parts[0], hex: hex,
            l: parseFloat(parts[2]), a: parseFloat(parts[3]),
            oklab_b: parseFloat(parts[4]),
            r: rgb.r, g: rgb.g, b: rgb.b,
            flag: JSON.parse(parts[5] || 'false'), // Safe fallback
        });
    }
-/

/-- Digit-string value used by the parseFloat model. -/
def digitsToNat (cs : List Char) : ℕ :=
  cs.foldl (fun acc c => 10 * acc + (c.toNat - '0'.toNat)) 0

/-- Model of JavaScript parseFloat for the numeric CSV fields: optional
sign, an integer part and an optional fraction part.  A string with no
leading numeric prefix gives NaN in JavaScript; the model returns 0 in its
place — no claim inspects these numeric fields, and parseFloat never
throws. -/
def parseFloatQ (s : String) : ℚ :=
  let cs := s.toList
  let sign : ℚ := match cs with | '-' :: _ => -1 | _ => 1
  let body := match cs with | '-' :: t => t | '+' :: t => t | t => t
  let intPart := body.takeWhile Char.isDigit
  let rest := body.dropWhile Char.isDigit
  let fracPart := match rest with | '.' :: t => t.takeWhile Char.isDigit | _ => []
  if intPart.isEmpty && fracPart.isEmpty then 0
  else sign * ((digitsToNat intPart : ℚ) + (digitsToNat fracPart : ℚ) / 10 ^ fracPart.length)

/-- Model of JSON.parse as applied to the flag field.  The JSON boolean
literals parse to themselves; any other token is modelled as a SyntaxError
(Except.error).  Full JSON.parse also accepts further literals (numbers,
null, quoted strings) whose truthiness would then be assigned to flag; the
claims only exercise the boolean literals and a non-JSON token, on which
this model agrees with JSON.parse. -/
def jsonParseBool (s : String) : Except Unit Bool :=
  if s = "true" then Except.ok true
  else if s = "false" then Except.ok false
  else Except.error ()

/-- The flag expression JSON.parse(parts[5] || 'false'): a missing sixth
field (parts[5] is undefined) and an empty sixth field (empty string) are
both falsy, so the fallback string 'false' is parsed in their place. -/
def parseFlagField (parts : List String) : Except Unit Bool :=
  let fld := parts.getD 5 ""
  if fld = "" then jsonParseBool "false" else jsonParseBool fld

/-- One iteration of the ColorLoader.load parsing loop: Except.ok none when
the row is skipped (blank line or fewer than five fields), Except.ok (some
record) when a record is pushed, Except.error when JSON.parse throws on the
flag field. -/
def parseRow (rawLine : String) : Except Unit (Option ColorRecord) :=
  let line := jsTrim rawLine
  if line = "" then Except.ok none
  else
    let parts := jsSplit line ','
    if 5 ≤ parts.length then
      match parseFlagField parts with
      | Except.error e => Except.error e
      | Except.ok flag =>
        let hex := parts.getD 1 ""
        let rgb := hexToRgb hex
        Except.ok (some
          { name := parts.getD 0 ""
            hex := hex
            l := parseFloatQ (parts.getD 2 "")
            a := parseFloatQ (parts.getD 3 "")
            oklab_b := parseFloatQ (parts.getD 4 "")
            r := rgb.r, g := rgb.g, b := rgb.b
            flag := flag })
    else Except.ok none

/-- The loop over all data lines, in order; the first thrown flag-parse
error aborts the whole load. -/
def parseRows : List String → Except Unit (List ColorRecord)
  | [] => Except.ok []
  | line :: rest =>
    match parseRow line with
    | Except.error e => Except.error e
    | Except.ok none => parseRows rest
    | Except.ok (some r) =>
      match parseRows rest with
      | Except.error e => Except.error e
      | Except.ok rs => Except.ok (r :: rs)

/-- ColorLoader.load on already-fetched text: split on newlines, skip the
header line (the loop starts at i = 1), parse the rest. -/
def parseColors (text : String) : Except Unit (List ColorRecord) :=
  parseRows ((jsSplit text '\n').drop 1)

/-- C9 counterexample.  The claim says a malformed flag value never turns
the load into a terminal error; but a kept row whose sixth field is the
non-JSON token oops makes JSON.parse throw, and load re-throws: the whole
load fails. -/
theorem c9_malformed_flag_counterexample :
    parseColors "name,hex,l,a,b\nfoo,ff0000,0.1,0.2,0.3,oops" = Except.error () := by
  rfl

/-- C9 (amended).  During dataset loading, every row with fewer than five
fields is dropped silently (no error raised), and the flag field of a kept
row defaults to false when it is absent or empty; but a kept row whose flag
field is present and is not a JSON literal raises a SyntaxError that makes
the whole load attempt fail. -/
theorem c9_loader_row_handling (line1 line2 : String)
    (h5 : (jsSplit (jsTrim line1) ',').length < 5)
    (h6 : (jsSplit (jsTrim line2) ',').length = 5) :
    parseRow line1 = Except.ok none
      ∧ (∃ r, parseRow line2 = Except.ok (some r) ∧ r.flag = false)
      ∧ parseColors "name,hex,l,a,b\nfoo,ff0000,0.1,0.2,0.3,oops" = Except.error () := by
  refine ⟨?_, ?_, c9_malformed_flag_counterexample⟩
  · simp only [parseRow]
    split_ifs with h1 h2
    · rfl
    · exact absurd h2 (by omega)
    · rfl
  · have htrim : ¬ jsTrim line2 = "" := by
      intro heq
      rw [heq] at h6
      have hone : (jsSplit "" ',').length = 1 := rfl
      omega
    have hflag : parseFlagField (jsSplit (jsTrim line2) ',') = Except.ok false := by
      unfold parseFlagField
      have hd : (jsSplit (jsTrim line2) ',').getD 5 "" = "" :=
        List.getD_eq_default _ _ (by omega)
      rw [hd]
      rfl
    simp only [parseRow]
    rw [if_neg htrim, if_pos (by omega : 5 ≤ (jsSplit (jsTrim line2) ',').length), hflag]
    exact ⟨_, rfl, rfl⟩

/-- Instantiation of C9 at two concrete rows: a two-field row is dropped,
and a five-field row is kept with flag defaulting to false. -/
theorem c9_loader_row_handling_witness :
    parseRow "x,y" = Except.ok none
      ∧ (∃ r, parseRow "n,ff0000,1,2,3" = Except.ok (some r) ∧ r.flag = false)
      ∧ parseColors "name,hex,l,a,b\nfoo,ff0000,0.1,0.2,0.3,oops" = Except.error () :=
  c9_loader_row_handling "x,y" "n,ff0000,1,2,3" (by decide) (by decide)


/-- A successful parseSixHex match certifies the regex condition: exactly
six characters, all hexadecimal. -/
theorem parseSixHex_some (cs : List Char) (rgb : Rgb)
    (h : parseSixHex cs = some rgb) :
    cs.length = 6 ∧ ∀ c ∈ cs, isHexChar c := by
  unfold parseSixHex at h
  split at h
  · next c1 c2 c3 c4 c5 c6 =>
    split at h
    · next hcond =>
      simp only [Bool.and_eq_true] at hcond
      obtain ⟨⟨⟨⟨⟨h1, h2⟩, h3⟩, h4⟩, h5⟩, h6⟩ := hcond
      refine ⟨rfl, ?_⟩
      intro c hc
      simp only [List.mem_cons, List.not_mem_nil, or_false] at hc
      rcases hc with rfl | rfl | rfl | rfl | rfl | rfl
      exacts [h1, h2, h3, h4, h5, h6]
    · exact absurd h (by simp)
  · exact absurd h (by simp)

/-- C10.  For every input string that is not exactly six hexadecimal digits
(optionally prefixed with '#'), hexToRgb returns the black triple (0,0,0)
rather than failing; consequently a CSV row with a malformed hexColor is
loaded as a record whose derived rgb is black instead of being rejected
(shown here on a concrete load). -/
theorem c10_hexToRgb_malformed_black (s : String) (h : ¬ IsHexColorFormat s) :
    hexToRgb s = { r := 0, g := 0, b := 0 }
      ∧ (∃ cr, parseColors "name,hex,l,a,b\nbad,zzzzzz,1,2,3" = Except.ok [cr]
          ∧ cr.name = "bad" ∧ cr.hex = "zzzzzz"
          ∧ cr.r = 0 ∧ cr.g = 0 ∧ cr.b = 0 ∧ cr.flag = false) := by
  refine ⟨?_, ⟨_, rfl, rfl, rfl, rfl, rfl, rfl, rfl⟩⟩
  by_contra hne
  apply h
  unfold hexToRgb at hne
  unfold IsHexColorFormat
  rcases hp : parseSixHex (stripHash s.toList) with _ | rgb
  · rw [hp] at hne
    exact (hne rfl).elim
  · obtain ⟨hlen, hall⟩ := parseSixHex_some _ _ hp
    rcases hs : s.toList with _ | ⟨c, rest⟩
    · rw [hs] at hlen
      simp [stripHash] at hlen
    · rw [hs] at hlen hall
      by_cases hc : c = '#'
      · right
        subst hc
        simp only [stripHash, if_pos] at hlen hall
        exact ⟨by simp [hlen], rfl, fun x hx => hall x hx⟩
      · left
        have hstrip : stripHash (c :: rest) = c :: rest := by
          simp [stripHash, hc]
        rw [hstrip] at hlen hall
        exact ⟨hlen, hall⟩

/-- Instantiation of C10 at the malformed input string red. -/
theorem c10_hexToRgb_malformed_black_witness :
    hexToRgb "red" = { r := 0, g := 0, b := 0 }
      ∧ (∃ cr, parseColors "name,hex,l,a,b\nbad,zzzzzz,1,2,3" = Except.ok [cr]
          ∧ cr.name = "bad" ∧ cr.hex = "zzzzzz"
          ∧ cr.r = 0 ∧ cr.g = 0 ∧ cr.b = 0 ∧ cr.flag = false) :=
  c10_hexToRgb_malformed_black "red" (by decide)

/-! ## Picker decode tails

Picker.pick (src/js/systems/Picker.js lines 68-71) ends with

    const [r, g, b] = this.pixelBuffer;
    if (r === 0 && g === 0 && b === 0) return -1;
    return colorToIndex(r, g, b);

while pickColorAtPixel (src/js/main.js lines 436-452) ends with

    if (r === 0 && g === 0 && b === 0) { return -1; }
    const index = colorToIndex(r, g, b);
    if (index >= 0 && index < colorData.length) { return index; }
    return -1;

The GPU render and read-back themselves are not statable here; the decode
of the read-back byte triple is.  Pixel channels come from a Uint8Array, so
they are bytes (< 256). -/

/-- The decode tail of Picker.pick: only the background test guards the
decoded value. -/
def pickerDecode (r g b : ℕ) : ℤ :=
  if r = 0 ∧ g = 0 ∧ b = 0 then -1 else colorToIndex r g b

/-- The decode tail of pickColorAtPixel in src/js/main.js: background test,
then range validation against the record count. -/
def pickColorAtPixelDecode (count : ℕ) (r g b : ℕ) : ℤ :=
  if r = 0 ∧ g = 0 ∧ b = 0 then -1
  else
    let index := colorToIndex r g b
    if 0 ≤ index ∧ index < (count : ℤ) then index else -1

/-- On byte triples the packed 24-bit value is plain positional arithmetic. -/
theorem colorToIndex_eq_arith (r g b : ℕ) (_hr : r < 256) (hg : g < 256) (hb : b < 256) :
    colorToIndex r g b = ((r * 65536 + g * 256 + b : ℕ) : ℤ) - 1 := by
  unfold colorToIndex
  have h1 : (r <<< 16) ||| (g <<< 8) = r * 65536 + g * 256 := by
    have hg8 : g <<< 8 = g * 256 := Nat.shiftLeft_eq g 8
    have hglt : g <<< 8 < 2 ^ 16 := by rw [hg8]; omega
    rw [shiftLeft_lor_eq_add _ _ _ hglt, hg8]
    norm_num
  have h2 : r * 65536 + g * 256 = (r * 256 + g) <<< 8 := by
    rw [Nat.shiftLeft_eq]
    ring
  rw [h1, h2, shiftLeft_lor_eq_add _ _ _ (show b < 2 ^ 8 by omega), Nat.shiftLeft_eq]

/-- C5 counterexample.  With a single loaded record, the claim demands that
a read-back pixel (0, 1, 0) — which decodes to index 255, outside the valid
range [0, 1) — make pick return -1; Picker.pick instead returns 255. -/
theorem c5_picker_pick_counterexample :
    pickerDecode 0 1 0 = 255 ∧ ¬ pickerDecode 0 1 0 = -1
      ∧ ¬ ((0 : ℤ) ≤ 255 ∧ (255 : ℤ) < (1 : ℕ)) := by
  refine ⟨by decide, by decide, by decide⟩

/-- C5 (amended).  For every record count and read-back byte triple:
pickColorAtPixel (src/js/main.js) returns -1 exactly when the pixel is
(0,0,0) or the decoded value lies outside [0, record count), and otherwise
returns the decoded index; Picker.pick (src/js/systems/Picker.js) returns
-1 only for the (0,0,0) background pixel and otherwise returns the decoded
index without any range validation (its callers guard out-of-range indices
instead). -/
theorem c5_pick_decode (count r g b : ℕ) (hr : r < 256) (hg : g < 256) (hb : b < 256) :
    (pickColorAtPixelDecode count r g b = -1
        ↔ ((r = 0 ∧ g = 0 ∧ b = 0)
            ∨ ¬ (0 ≤ colorToIndex r g b ∧ colorToIndex r g b < (count : ℤ))))
      ∧ (¬ (r = 0 ∧ g = 0 ∧ b = 0) →
          (0 ≤ colorToIndex r g b ∧ colorToIndex r g b < (count : ℤ)) →
          pickColorAtPixelDecode count r g b = colorToIndex r g b)
      ∧ (pickerDecode r g b = -1 ↔ (r = 0 ∧ g = 0 ∧ b = 0))
      ∧ (¬ (r = 0 ∧ g = 0 ∧ b = 0) → pickerDecode r g b = colorToIndex r g b) := by
  have harith := colorToIndex_eq_arith r g b hr hg hb
  have hpos : ¬ (r = 0 ∧ g = 0 ∧ b = 0) → 0 ≤ colorToIndex r g b := by
    intro hny
    rw [harith]
    have : 1 ≤ r * 65536 + g * 256 + b := by
      rcases Nat.eq_zero_or_pos r with hr0 | hr1
      · rcases Nat.eq_zero_or_pos g with hg0 | hg1
        · rcases Nat.eq_zero_or_pos b with hb0 | hb1
          · exact absurd ⟨hr0, hg0, hb0⟩ hny
          · omega
        · omega
      · omega
    omega
  constructor
  · unfold pickColorAtPixelDecode
    by_cases hblack : r = 0 ∧ g = 0 ∧ b = 0
    · rw [if_pos hblack]
      exact ⟨fun _ => Or.inl hblack, fun _ => rfl⟩
    · rw [if_neg hblack]
      by_cases hrange : 0 ≤ colorToIndex r g b ∧ colorToIndex r g b < (count : ℤ)
      · rw [if_pos hrange]
        constructor
        · intro hm1
          exfalso
          have := hpos hblack
          omega
        · intro hd
          rcases hd with hd | hd
          · exact absurd hd hblack
          · exact absurd hrange hd
      · rw [if_neg hrange]
        exact ⟨fun _ => Or.inr hrange, fun _ => rfl⟩
  refine ⟨?_, ?_, ?_⟩
  · intro hblack hrange
    unfold pickColorAtPixelDecode
    rw [if_neg hblack, if_pos hrange]
  · unfold pickerDecode
    by_cases hblack : r = 0 ∧ g = 0 ∧ b = 0
    · rw [if_pos hblack]
      exact ⟨fun _ => hblack, fun _ => rfl⟩
    · rw [if_neg hblack]
      constructor
      · intro hm1
        have := hpos hblack
        omega
      · intro hd
        exact absurd hd hblack
  · intro hblack
    unfold pickerDecode
    rw [if_neg hblack]

/-- Instantiation of C5 at record count 1 and the out-of-range pixel
(0, 1, 0): pickColorAtPixel returns the sentinel while Picker.pick returns
the raw decoded index 255. -/
theorem c5_pick_decode_witness :
    pickColorAtPixelDecode 1 0 1 0 = -1 ∧ pickerDecode 0 1 0 = colorToIndex 0 1 0 := by
  have h := c5_pick_decode 1 0 1 0 (by norm_num) (by norm_num) (by norm_num)
  constructor
  · exact h.1.mpr (Or.inr (by decide))
  · exact h.2.2.2 (by decide)

/-! ## getEditDistance (src/js/utils.js lines 115-139)

The reference is Mathlib's levenshtein with the default unit-cost
structure.  The section first derives the lemmas about the reference
needed to follow the implementation (symmetry, the short-circuit head
recurrence, and the append-one-character recurrence that a prefix-indexed
dynamic program uses), then embeds the JavaScript single-row loop and
proves it correct. -/

/-- Reference definition: Mathlib's Levenshtein distance with unit costs. -/
def levRef (xs ys : List Char) : ℕ := levenshtein Levenshtein.defaultCost xs ys

theorem levRef_nil_left (ys : List Char) : levRef [] ys = ys.length := by
  induction ys with
  | nil => rfl
  | cons y ys ih =>
    unfold levRef at *
    rw [levenshtein_nil_cons, ih]
    simp only [List.length_cons, Levenshtein.defaultCost_insert]
    omega

theorem levRef_nil_right (xs : List Char) : levRef xs [] = xs.length := by
  induction xs with
  | nil => rfl
  | cons x xs ih =>
    unfold levRef at *
    rw [levenshtein_cons_nil, ih]
    simp only [List.length_cons, Levenshtein.defaultCost_delete]
    omega

theorem levRef_cons_cons (x : Char) (xs : List Char) (y : Char) (ys : List Char) :
    levRef (x :: xs) (y :: ys) =
      min (1 + levRef xs (y :: ys))
        (min (1 + levRef (x :: xs) ys) ((if x = y then 0 else 1) + levRef xs ys)) := by
  unfold levRef
  rw [levenshtein_cons_cons]
  simp [Levenshtein.defaultCost]

theorem levRef_length_bound : ∀ (n : ℕ) (xs ys : List Char), xs.length + ys.length = n →
    ys.length ≤ levRef xs ys + xs.length ∧ xs.length ≤ levRef xs ys + ys.length := by
  intro n
  induction n using Nat.strong_induction_on with
  | _ n ih =>
    intro xs ys hn
    cases xs with
    | nil => rw [levRef_nil_left]; simp
    | cons x xs =>
      cases ys with
      | nil => rw [levRef_nil_right]; simp
      | cons y ys =>
        rw [levRef_cons_cons]
        simp only [List.length_cons] at hn ⊢
        have h1 := ih (xs.length + (ys.length + 1)) (by omega) xs (y :: ys)
          (by simp only [List.length_cons])
        have h2 := ih (xs.length + 1 + ys.length) (by omega) (x :: xs) ys
          (by simp only [List.length_cons])
        have h3 := ih (xs.length + ys.length) (by omega) xs ys rfl
        simp only [List.length_cons] at h1 h2 h3
        by_cases hxy : x = y
        · rw [if_pos hxy]; omega
        · rw [if_neg hxy]; omega

theorem levRef_comm_aux : ∀ (n : ℕ) (xs ys : List Char), xs.length + ys.length = n →
    levRef xs ys = levRef ys xs := by
  intro n
  induction n using Nat.strong_induction_on with
  | _ n ih =>
    intro xs ys hn
    cases xs with
    | nil => rw [levRef_nil_left, levRef_nil_right]
    | cons x xs =>
      cases ys with
      | nil => rw [levRef_nil_left, levRef_nil_right]
      | cons y ys =>
        rw [levRef_cons_cons, levRef_cons_cons]
        simp only [List.length_cons] at hn
        have h1 := ih (xs.length + (ys.length + 1)) (by omega) xs (y :: ys)
          (by simp only [List.length_cons])
        have h2 := ih (xs.length + 1 + ys.length) (by omega) (x :: xs) ys
          (by simp only [List.length_cons])
        have h3 := ih (xs.length + ys.length) (by omega) xs ys rfl
        rw [h1, h2, h3]
        by_cases hxy : x = y
        · rw [if_pos hxy, if_pos hxy.symm]
          omega
        · rw [if_neg hxy, if_neg (fun h => hxy h.symm)]
          omega

theorem levRef_comm (xs ys : List Char) : levRef xs ys = levRef ys xs :=
  levRef_comm_aux (xs.length + ys.length) xs ys rfl

theorem levRef_le_cons_left : ∀ (ys xs : List Char) (x : Char),
    levRef xs ys ≤ levRef (x :: xs) ys + 1 := by
  intro ys
  induction ys with
  | nil =>
    intro xs x
    rw [levRef_nil_right, levRef_nil_right]
    simp only [List.length_cons]
    omega
  | cons y ys ih =>
    intro xs x
    cases xs with
    | nil =>
      rw [levRef_nil_left]
      have hb := levRef_length_bound ([x].length + (y :: ys).length) [x] (y :: ys) rfl
      simp only [List.length_cons, List.length_nil] at hb ⊢
      omega
    | cons x' xs' =>
      have hA := levRef_cons_cons x' xs' y ys
      have hB := levRef_cons_cons x (x' :: xs') y ys
      have ih1 := ih (x' :: xs') x
      have ih2 := ih xs' x'
      by_cases hxy : x = y
      · rw [if_pos hxy] at hB
        by_cases hxy' : x' = y
        · rw [if_pos hxy'] at hA; omega
        · rw [if_neg hxy'] at hA; omega
      · rw [if_neg hxy] at hB
        by_cases hxy' : x' = y
        · rw [if_pos hxy'] at hA; omega
        · rw [if_neg hxy'] at hA; omega

theorem levRef_le_cons_right (xs ys : List Char) (y : Char) :
    levRef xs ys ≤ levRef xs (y :: ys) + 1 := by
  rw [levRef_comm xs ys, levRef_comm xs (y :: ys)]
  exact levRef_le_cons_left xs ys y

/-- The short-circuit form of the recurrence: when the heads agree the
diagonal value is already minimal. -/
theorem levRef_step (x : Char) (xs : List Char) (y : Char) (ys : List Char) :
    levRef (x :: xs) (y :: ys) =
      if x = y then levRef xs ys
      else 1 + min (levRef xs ys) (min (levRef (x :: xs) ys) (levRef xs (y :: ys))) := by
  rw [levRef_cons_cons]
  by_cases hxy : x = y
  · rw [if_pos hxy, if_pos hxy]
    have h1 := levRef_le_cons_left ys xs x
    have h2 := levRef_le_cons_right xs ys y
    omega
  · rw [if_neg hxy, if_neg hxy]
    omega

/-- Distance to a single-character string: delete everything else, and one
more edit when the character never occurs. -/
theorem levRef_single_right : ∀ (zs : List Char) (d : Char),
    levRef zs [d] = if d ∈ zs then zs.length - 1 else max zs.length 1 := by
  intro zs
  induction zs with
  | nil =>
    intro d
    rw [levRef_nil_left]
    simp
  | cons z zs ih =>
    intro d
    have hstep := levRef_step z zs d []
    rw [levRef_nil_right, levRef_nil_right] at hstep
    have ihd := ih d
    by_cases hzd : z = d
    · rw [if_pos hzd] at hstep
      rw [hstep]
      have hmem : d ∈ z :: zs := by rw [hzd]; exact List.mem_cons_self d zs
      rw [if_pos hmem]
      simp
    · rw [if_neg hzd] at hstep
      rw [hstep]
      by_cases hd : d ∈ zs
      · rw [if_pos hd] at ihd
        have hmem : d ∈ z :: zs := List.mem_cons_of_mem z hd
        rw [if_pos hmem, ihd]
        have hpos : 1 ≤ zs.length := List.length_pos.mpr (List.ne_nil_of_mem hd)
        simp only [List.length_cons]
        omega
      · rw [if_neg hd] at ihd
        have hmem : ¬ d ∈ z :: zs := by
          simp only [List.mem_cons]
          push_neg
          exact ⟨fun h => hzd h.symm, hd⟩
        rw [if_neg hmem, ihd]
        simp only [List.length_cons]
        omega

theorem levRef_single_left (c : Char) (zs : List Char) :
    levRef [c] zs = if c ∈ zs then zs.length - 1 else max zs.length 1 := by
  rw [levRef_comm, levRef_single_right]

/-- The append-one-character recurrence with an empty second context. -/
theorem levRef_snoc_nil (p : List Char) (c d : Char) :
    levRef (p ++ [c]) [d] =
      if c = d then levRef p []
      else 1 + min (levRef p []) (min (levRef (p ++ [c]) []) (levRef p [d])) := by
  rw [levRef_single_right, levRef_nil_right, levRef_nil_right, levRef_single_right]
  have hmem : d ∈ p ++ [c] ↔ d ∈ p ∨ c = d := by
    simp [List.mem_append, eq_comm]
  by_cases hcd : c = d
  · rw [if_pos hcd, if_pos (hmem.mpr (Or.inr hcd))]
    simp
  · rw [if_neg hcd]
    by_cases hdp : d ∈ p
    · rw [if_pos (hmem.mpr (Or.inl hdp)), if_pos hdp]
      have hpos : 1 ≤ p.length := List.length_pos.mpr (List.ne_nil_of_mem hdp)
      simp only [List.length_append, List.length_cons, List.length_nil]
      omega
    · rw [if_neg (by rw [hmem]; push_neg; exact ⟨hdp, hcd⟩), if_neg hdp]
      simp only [List.length_append, List.length_cons, List.length_nil]
      omega

/-- The append-one-character recurrence with an empty first context. -/
theorem levRef_nil_snoc (q : List Char) (c d : Char) :
    levRef [c] (q ++ [d]) =
      if c = d then levRef [] q
      else 1 + min (levRef [] q) (min (levRef [c] q) (levRef [] (q ++ [d]))) := by
  rw [levRef_comm [c] (q ++ [d]), levRef_snoc_nil q d c]
  rw [levRef_comm q [], levRef_comm (q ++ [d]) [], levRef_comm q [c]]
  by_cases hcd : c = d
  · rw [if_pos hcd, if_pos hcd.symm]
  · rw [if_neg hcd, if_neg (fun h => hcd h.symm)]
    omega

/-- Transposing a 3-by-3 grid of costs does not change the overall minimum;
this is the min-algebra at the heart of the snoc-form recurrence below. -/
theorem min9_expand (a0 a1 a2 b0 b1 b2 c0 c1 c2 : ℕ) :
    1 + min (1 + min a0 (min a1 a2)) (min (1 + min b0 (min b1 b2)) (1 + min c0 (min c1 c2)))
      = 1 + min (1 + min a0 (min b0 c0)) (min (1 + min a1 (min b1 c1)) (1 + min a2 (min b2 c2))) := by
  have hd : ∀ u v w : ℕ, min (1 + u) (min (1 + v) (1 + w)) = 1 + min u (min v w) := by
    intro u v w; omega
  rw [hd, hd]
  have ht : min (min a0 (min a1 a2)) (min (min b0 (min b1 b2)) (min c0 (min c1 c2)))
      = min (min a0 (min b0 c0)) (min (min a1 (min b1 c1)) (min a2 (min b2 c2))) := by
    apply le_antisymm <;>
      · repeat' apply le_min
        all_goals omega
  rw [ht]

/-- The append-one-character (last column / last row) form of the
Levenshtein recurrence, which is what the single-row dynamic program of
getEditDistance computes cell by cell. -/
theorem levRef_snoc_aux : ∀ (n : ℕ) (p q : List Char) (c d : Char),
    p.length + q.length = n →
    levRef (p ++ [c]) (q ++ [d]) =
      if c = d then levRef p q
      else 1 + min (levRef p q) (min (levRef (p ++ [c]) q) (levRef p (q ++ [d]))) := by
  intro n
  induction n using Nat.strong_induction_on with
  | _ n ih =>
    intro p q c d hn
    cases q with
    | nil => exact levRef_snoc_nil p c d
    | cons y q' =>
      cases p with
      | nil => exact levRef_nil_snoc (y :: q') c d
      | cons x p' =>
        simp only [List.length_cons] at hn
        simp only [List.cons_append]
        have e1 := ih (p'.length + (q'.length + 1)) (by omega) p' (y :: q') c d
          (by simp only [List.length_cons])
        have e2 := ih (p'.length + 1 + q'.length) (by omega) (x :: p') q' c d
          (by simp only [List.length_cons])
        have e3 := ih (p'.length + q'.length) (by omega) p' q' c d rfl
        simp only [List.cons_append] at e1 e2
        have s1 := levRef_step x (p' ++ [c]) y (q' ++ [d])
        have s2 := levRef_step x p' y (q' ++ [d])
        have s3 := levRef_step x (p' ++ [c]) y q'
        have s4 := levRef_step x p' y q'
        by_cases hcd : c = d
        · rw [if_pos hcd] at e1 e2 e3 ⊢
          by_cases hxy : x = y
          · rw [if_pos hxy] at s1 s2 s3 s4
            rw [s1, s4, e3]
          · rw [if_neg hxy] at s1 s2 s3 s4
            rw [s1, s4, e1, e2, e3]
        · rw [if_neg hcd] at e1 e2 e3 ⊢
          by_cases hxy : x = y
          · rw [if_pos hxy] at s1 s2 s3 s4
            rw [s1, s2, s3, s4, e3]
          · rw [if_neg hxy] at s1 s2 s3 s4
            rw [s1, s2, s3, s4, e1, e2, e3]
            generalize levRef p' q' = a0
            generalize levRef (p' ++ [c]) q' = a1
            generalize levRef p' (q' ++ [d]) = a2
            generalize levRef (x :: p') q' = b0
            generalize levRef (x :: (p' ++ [c])) q' = b1
            generalize levRef (x :: p') (q' ++ [d]) = b2
            generalize levRef p' (y :: q') = c0
            generalize levRef (p' ++ [c]) (y :: q') = c1
            generalize levRef p' (y :: (q' ++ [d])) = c2
            exact min9_expand a0 a1 a2 b0 b1 b2 c0 c1 c2

theorem levRef_snoc (p q : List Char) (c d : Char) :
    levRef (p ++ [c]) (q ++ [d]) =
      if c = d then levRef p q
      else 1 + min (levRef p q) (min (levRef (p ++ [c]) q) (levRef p (q ++ [d]))) :=
  levRef_snoc_aux (p.length + q.length) p q c d rfl

/-! The implementation (src/js/utils.js lines 115-139):

    export function getEditDistance(a, b) {
        if (a.length === 0) return b.length;
        if (b.length === 0) return a.length;
        if (a.length > b.length) [a, b] = [b, a];
        const row = [];
        for (let i = 0; i <= a.length; i++) row[i] = i;
        for (let i = 1; i <= b.length; i++) {
            let prev = i;
            for (let j = 1; j <= a.length; j++) {
                let val;
                if (b.charAt(i - 1) === a.charAt(j - 1)) {
                    val = row[j - 1];
                } else {
                    val = Math.min(row[j - 1] + 1, Math.min(prev + 1, row[j] + 1));
                }
                row[j - 1] = prev;
                prev = val;
            }
            row[a.length] = prev;
        }
        return row[a.length];
    }
-/

/-- The inner loop over j = 1 .. a.length.  At entry to iteration j the
argument list holds the still-unoverwritten row segment row[j-1 ..]; the
head is row[j-1], its successor row[j].  The returned list collects the
writes row[j-1] = prev in order, ending with the final write
row[a.length] = prev. -/
def stepRow (bc : Char) : List Char → ℕ → List ℕ → List ℕ
  | [], prev, _ => [prev]
  | ac :: as, prev, oldRow =>
    let val := if bc = ac then oldRow.headD 0
      else min (oldRow.headD 0 + 1) (min (prev + 1) (oldRow.tail.headD 0 + 1))
    prev :: stepRow bc as val oldRow.tail

/-- The outer loop over i = 1 .. b.length, carrying i (the initial prev of
each inner pass) and the row. -/
def outerLoop (as : List Char) : List Char → ℕ → List ℕ → List ℕ
  | [], _, row => row
  | bc :: bs, i, row => outerLoop as bs (i + 1) (stepRow bc as i row)

/-- getEditDistance from src/js/utils.js.  The destructuring swap
[a, b] = [b, a] is rendered by the two symmetric branches; row is
initialised to 0, 1, .., a.length and the final answer is row[a.length]. -/
def getEditDistance (a b : String) : ℕ :=
  if a.length = 0 then b.length
  else if b.length = 0 then a.length
  else if a.length > b.length then
    (outerLoop b.toList a.toList 1 (List.range (b.toList.length + 1))).getD b.toList.length 0
  else
    (outerLoop a.toList b.toList 1 (List.range (a.toList.length + 1))).getD a.toList.length 0

/-- The specification of one DP row: position j holds the distance from the
processed prefix p of b to the first j characters of a (tracked here by the
consumed context q and the remaining characters as). -/
def levRow (p q : List Char) : List Char → List ℕ
  | [] => [levRef p q]
  | ac :: as => levRef p q :: levRow p (q ++ [ac]) as

theorem levRow_headD (p q as : List Char) : (levRow p q as).headD 0 = levRef p q := by
  cases as <;> rfl

/-- One inner pass advances the whole row by one character of b. -/
theorem stepRow_levRow : ∀ (as q p : List Char) (bc : Char),
    stepRow bc as (levRef (p ++ [bc]) q) (levRow p q as) = levRow (p ++ [bc]) q as := by
  intro as
  induction as with
  | nil => intro q p bc; rfl
  | cons ac as ih =>
    intro q p bc
    show levRef (p ++ [bc]) q ::
        stepRow bc as
          (if bc = ac then (levRow p q (ac :: as)).headD 0
            else min ((levRow p q (ac :: as)).headD 0 + 1)
              (min (levRef (p ++ [bc]) q + 1) ((levRow p q (ac :: as)).tail.headD 0 + 1)))
          (levRow p q (ac :: as)).tail
      = levRef (p ++ [bc]) q :: levRow (p ++ [bc]) (q ++ [ac]) as
    have htail : (levRow p q (ac :: as)).tail = levRow p (q ++ [ac]) as := rfl
    have hhead0 : (levRow p q (ac :: as)).headD 0 = levRef p q := rfl
    have hhead1 : (levRow p (q ++ [ac]) as).headD 0 = levRef p (q ++ [ac]) :=
      levRow_headD p (q ++ [ac]) as
    rw [htail, hhead0, hhead1]
    have hval : (if bc = ac then levRef p q
        else min (levRef p q + 1) (min (levRef (p ++ [bc]) q + 1) (levRef p (q ++ [ac]) + 1)))
        = levRef (p ++ [bc]) (q ++ [ac]) := by
      rw [levRef_snoc p q bc ac]
      by_cases hcd : bc = ac
      · rw [if_pos hcd, if_pos hcd]
      · rw [if_neg hcd, if_neg hcd]
        omega
    rw [hval, ih (q ++ [ac]) p bc]

/-- Folding the outer loop over the remaining characters of b extends the
processed prefix. -/
theorem outerLoop_levRow : ∀ (bs p as : List Char),
    outerLoop as bs (p.length + 1) (levRow p [] as) = levRow (p ++ bs) [] as := by
  intro bs
  induction bs with
  | nil =>
    intro p as
    simp [outerLoop]
  | cons bc bs ih =>
    intro p as
    show outerLoop as bs (p.length + 1 + 1) (stepRow bc as (p.length + 1) (levRow p [] as))
      = levRow (p ++ bc :: bs) [] as
    have hprev : (p.length + 1 : ℕ) = levRef (p ++ [bc]) [] := by
      rw [levRef_nil_right]
      simp
    rw [hprev, stepRow_levRow as [] p bc, levRef_nil_right]
    have h2 := ih (p ++ [bc]) as
    simp only [List.length_append, List.length_cons, List.length_nil] at h2
    simpa [List.append_assoc] using h2

/-- The freshly initialised row 0, 1, .., n is the distance row for the
empty prefix of b. -/
theorem levRow_nil_left : ∀ (as q : List Char),
    levRow [] q as = List.range' q.length (as.length + 1) := by
  intro as
  induction as with
  | nil =>
    intro q
    show [levRef [] q] = List.range' q.length 1
    rw [levRef_nil_left]
    rfl
  | cons ac as ih =>
    intro q
    show levRef [] q :: levRow [] (q ++ [ac]) as = List.range' q.length ((ac :: as).length + 1)
    rw [levRef_nil_left, ih (q ++ [ac])]
    simp only [List.length_append, List.length_cons, List.length_nil]
    simp [List.range'_succ]

theorem levRow_nil_nil (as : List Char) :
    levRow [] [] as = List.range (as.length + 1) := by
  rw [levRow_nil_left, List.range_eq_range']
  simp

/-- Reading row[a.length] after the last pass yields the full distance. -/
theorem levRow_getD : ∀ (as q p : List Char),
    (levRow p q as).getD as.length 0 = levRef p (q ++ as) := by
  intro as
  induction as with
  | nil =>
    intro q p
    show (levRow p q []).getD 0 0 = levRef p (q ++ [])
    simp [levRow]
  | cons ac as ih =>
    intro q p
    show (levRef p q :: levRow p (q ++ [ac]) as).getD (as.length + 1) 0 = levRef p (q ++ ac :: as)
    rw [List.getD_cons_succ, ih (q ++ [ac]) p]
    simp [List.append_assoc]

/-- C3.  For every pair of strings, getEditDistance computes exactly the
Levenshtein edit distance (Mathlib's levenshtein with unit insert, delete
and substitute costs) between their character sequences. -/
theorem c3_getEditDistance_correct (a b : String) :
    getEditDistance a b = levenshtein Levenshtein.defaultCost a.toList b.toList := by
  show getEditDistance a b = levRef a.toList b.toList
  unfold getEditDistance
  have hlen : ∀ s : String, s.length = s.toList.length := fun s => rfl
  by_cases ha : a.length = 0
  · rw [if_pos ha]
    have ha' : a.toList = [] := by
      rw [hlen] at ha
      exact List.length_eq_zero.mp ha
    rw [ha', levRef_nil_left]
    rfl
  · rw [if_neg ha]
    by_cases hb : b.length = 0
    · rw [if_pos hb]
      have hb' : b.toList = [] := by
        rw [hlen] at hb
        exact List.length_eq_zero.mp hb
      rw [hb', levRef_nil_right]
      rfl
    · rw [if_neg hb]
      have hmain : ∀ xs ys : List Char,
          (outerLoop xs ys 1 (List.range (xs.length + 1))).getD xs.length 0 = levRef ys xs := by
        intro xs ys
        have h0 := outerLoop_levRow ys [] xs
        rw [levRow_nil_nil] at h0
        simp only [List.length_nil, List.nil_append, Nat.zero_add] at h0
        rw [h0, levRow_getD xs [] ys]
        simp
      by_cases hswap : a.length > b.length
      · rw [if_pos hswap]
        exact hmain b.toList a.toList
      · rw [if_neg hswap]
        rw [hmain a.toList b.toList]
        exact levRef_comm b.toList a.toList


/-! ## Search ranking

Two implementations exist in the repository.  updateSearchResults
(src/js/main.js lines 588-671, and likewise in src/unnamed/part_000 lines
258-345) remembers whether the fuzzy fallback was taken:

    let isFuzzy = false;
    if (potentialMatches.length === 0) {
        isFuzzy = true;
        potentialMatches = colorData.filter(c => !hideUnflaggedColors || c.flag);
    }
    ...
    const limit = isFuzzy ? 20 : 100;

UIManager._handleSearch (the UIManager module bundled in src/js/main.js,
lines 1029-1077) instead re-tests potentialMatches after the fallback has
refilled it:

    if (potentialMatches.length === 0) {
        potentialMatches = this.data.filter(c => !hideUnflagged || c.flag);
    }
    ...
    const limit = potentialMatches.length === 0 ? 20 : 100;

so there the 20-entry branch can only be reached when there are no
candidates at all.  JavaScript Array.prototype.sort with the comparator
(a, b) => a.dist - b.dist is a stable ascending sort by dist; it is
modelled by insertion sort with a non-strict comparison, which is stable
and computes the same list. -/

/-- A candidate paired with its edit distance, as built by the
matchesWithDist mapping step. -/
structure SearchHit where
  color : ColorRecord
  dist : ℕ

/-- The strict substring pass: visibility filter, then case-insensitive
substring match against the name or the hex. -/
def strictPass (hideUnflagged : Bool) (data : List ColorRecord) (lowerQuery : String) :
    List ColorRecord :=
  data.filter fun color =>
    if hideUnflagged && !color.flag then false
    else jsIncludes (jsToLower color.name) lowerQuery
      || jsIncludes (jsToLower color.hex) lowerQuery

/-- The fuzzy-pass candidate pool: every visibility-filtered record. -/
def fuzzyPool (hideUnflagged : Bool) (data : List ColorRecord) : List ColorRecord :=
  data.filter fun c => !hideUnflagged || c.flag

/-- Attach min(editDistance(query, name), editDistance(query, hex)) to each
candidate and sort ascending by distance (stable). -/
def rankByDistance (lowerQuery : String) (potentialMatches : List ColorRecord) :
    List SearchHit :=
  let matchesWithDist := potentialMatches.map fun color =>
    { color := color
      dist := min (getEditDistance lowerQuery (jsToLower color.name))
                  (getEditDistance lowerQuery (jsToLower color.hex)) }
  List.insertionSort (fun a b : SearchHit => a.dist ≤ b.dist) matchesWithDist

/-- updateSearchResults (src/js/main.js lines 588-671): the caller passes a
query that is already trimmed and lowercased; the function bails out below
length 2, lowercases again, and caps the result at 20 entries for the
fuzzy pass and 100 for the strict pass. -/
def updateSearchResults (hideUnflagged : Bool) (data : List ColorRecord)
    (query : String) : List ColorRecord :=
  if query.length < 2 then []
  else
    let lowerQuery := jsToLower query
    let strictMatches := strictPass hideUnflagged data lowerQuery
    let isFuzzy := strictMatches.length = 0
    let potentialMatches :=
      if strictMatches.length = 0 then fuzzyPool hideUnflagged data else strictMatches
    let sorted := rankByDistance lowerQuery potentialMatches
    let limit := if isFuzzy then 20 else 100
    (sorted.take limit).map (fun hit => hit.color)

/-- UIManager._handleSearch (src/js/main.js lines 1029-1077): trims and
lowercases the raw query itself, and computes the limit from the length of
potentialMatches after the fuzzy fallback has replaced it. -/
def handleSearch (hideUnflagged : Bool) (data : List ColorRecord)
    (rawQuery : String) : List ColorRecord :=
  let query := jsToLower (jsTrim rawQuery)
  if query.length < 2 then []
  else
    let strictMatches := strictPass hideUnflagged data query
    let potentialMatches :=
      if strictMatches.length = 0 then fuzzyPool hideUnflagged data else strictMatches
    let sorted := rankByDistance query potentialMatches
    let limit := if potentialMatches.length = 0 then 20 else 100
    (sorted.take limit).map (fun hit => hit.color)

/-- A dataset of 21 identical flagged records whose name and hex contain no
occurrence of the query zz, so the strict pass is empty and the fuzzy
fallback runs over all 21 records. -/
def fuzzyBugData : List ColorRecord :=
  List.replicate 21
    { name := "n00", hex := "ff0000", l := 0, a := 0, oklab_b := 0
      r := 255, g := 0, b := 0, flag := true }

/-- C4 (code bug).  On a 21-record dataset with zero strict substring
matches for the query zz, the fuzzy fallback pass is used, yet
UIManager._handleSearch returns all 21 entries — its fuzzy cap of 20 is
dead code because the limit condition is evaluated after the fallback
refilled potentialMatches — while updateSearchResults, which the claim and
the spec describe, correctly caps the same fuzzy result set at 20. -/
theorem c4_fuzzy_cap_code_bug :
    strictPass false fuzzyBugData (jsToLower (jsTrim "zz")) = []
      ∧ (handleSearch false fuzzyBugData "zz").length = 21
      ∧ (updateSearchResults false fuzzyBugData "zz").length = 20 := by
  refine ⟨by decide, by decide, by decide⟩
